import Mathlib

/-!
# Verification of the `MessageHandler` binding shim

This development embeds `bindings/nodejs/lib/MessageHandler.ts` from the
iota-sdk repository: a thin adapter that JSON-serializes method calls and
forwards them to an opaque native message-handling engine.

The embedding models:

* JavaScript values crossing `JSON.stringify` (`JsValue`, including
  `undefined`, whose fields are omitted from serialized objects);
* `JSON.stringify` itself (`jsStringify` / `renderL`), faithful to the
  JS semantics used by the shim: `undefined` at top level serializes to
  nothing, `undefined` object fields are dropped, strings are escaped
  with the JS escape set (quote, backslash, named control escapes, and
  lowercase hex escapes for the remaining control characters);
* a JSON deserializer (`jsonParse`) together with a proof that parsing a
  rendered value recovers it exactly, for every JSON-representable value;
* the `MessageHandler` class itself: its constructor, `sendMessage`,
  `callAccountMethod` and `listen`, with the native entry points
  (`messageHandlerNew`, `sendMessageAsync`) abstracted as a record of
  functions and each native call recorded in an explicit trace, so that
  "called exactly once with argument x" is a provable statement.

The native `listen`/event-dispatch behaviour lives in the Rust bindings,
outside the embedded source file; it is modelled from the specification
(see `nativeListen` and `dispatchEvent`).
-/

namespace IotaSdk

/-! ## JavaScript values

`JsValue` models the JavaScript values the shim passes to `JSON.stringify`:
`undefined`, `null`, booleans, (integer) numbers, strings, arrays and
objects. Arrays and object field lists are mutual inductives rather than
nested `List`s so that all functions below are plain structural recursion.
Strings are modelled as `List Char`.
-/

mutual

inductive JsValue : Type where
  | undef : JsValue
  | null : JsValue
  | bool : Bool → JsValue
  | num : Int → JsValue
  | str : List Char → JsValue
  | arr : JsList → JsValue
  | obj : JsFields → JsValue

inductive JsList : Type where
  | nil : JsList
  | cons : JsValue → JsList → JsList

inductive JsFields : Type where
  | nil : JsFields
  | cons : List Char → JsValue → JsFields → JsFields

end

deriving instance DecidableEq for JsValue

/-- The characters of a string literal. -/
def str2l (s : String) : List Char := s.data

/-- Whether a value is the JavaScript `undefined`. -/
def isUndef : JsValue → Bool
  | .undef => true
  | _ => false

/-- Whether a field list contains at least one field whose value is not
`undefined` (i.e. at least one field that `JSON.stringify` will emit). -/
def hasEmittable : JsFields → Bool
  | .nil => false
  | .cons _ v fs => !isUndef v || hasEmittable fs

/-! ## Decimal rendering of numbers -/

/-- The decimal digit character for `d` (digits ≥ 10 cannot arise at call
sites, which always pass `d < 10`). -/
def digitChar : Nat → Char
  | 0 => '0' | 1 => '1' | 2 => '2' | 3 => '3' | 4 => '4'
  | 5 => '5' | 6 => '6' | 7 => '7' | 8 => '8' | 9 => '9'
  | _ => '0'

/-- Whether a character is a decimal digit. -/
def isDigitChar (c : Char) : Bool := '0' ≤ c && c ≤ '9'

/-- The numeric value of a decimal digit character. -/
def digitVal (c : Char) : Nat := c.toNat - 48

/-- Decimal digits of `n`, most significant first; `fuel` bounds the
recursion and any `fuel ≥ n` yields the true digits. -/
def natToCharsAux : Nat → Nat → List Char
  | 0, n => [digitChar n]
  | f + 1, n => if n < 10 then [digitChar n] else natToCharsAux f (n / 10) ++ [digitChar (n % 10)]

/-- Decimal digits of `n`, most significant first. -/
def natToChars (n : Nat) : List Char := natToCharsAux n n

/-- The power of ten shifting past the digits `natToCharsAux f n` emits;
mirrors the recursion of `natToCharsAux` so the two can be related by a
single induction. -/
def pow10Aux : Nat → Nat → Nat
  | 0, _ => 10
  | f + 1, n => if n < 10 then 10 else 10 * pow10Aux f (n / 10)

/-- Whether the input does not continue with a decimal digit (so a greedy
digit scan stopping here is correct). -/
def digitBoundary : List Char → Bool
  | [] => true
  | c :: _ => !isDigitChar c

/-- Decimal rendering of an integer, matching how JavaScript stringifies
the integral numbers the shim sends. -/
def intToChars (n : Int) : List Char :=
  if n < 0 then '-' :: natToChars n.natAbs else natToChars n.natAbs

/-! ## String escaping (the `JSON.stringify` escape set) -/

/-- The lowercase hex digit character for `d < 16`. -/
def hexChar : Nat → Char
  | 0 => '0' | 1 => '1' | 2 => '2' | 3 => '3' | 4 => '4'
  | 5 => '5' | 6 => '6' | 7 => '7' | 8 => '8' | 9 => '9'
  | 10 => 'a' | 11 => 'b' | 12 => 'c' | 13 => 'd' | 14 => 'e' | 15 => 'f'
  | _ => '0'

/-- JSON escape of one character, as `JSON.stringify` produces it: quote
and backslash escaped, the named control escapes, and `\u00xx` (lowercase)
for the remaining control characters; everything else verbatim. -/
def escChar (c : Char) : List Char :=
  if c = '"' then ['\\', '"']
  else if c = '\\' then ['\\', '\\']
  else if c = '\x08' then ['\\', 'b']
  else if c = '\x09' then ['\\', 't']
  else if c = '\x0a' then ['\\', 'n']
  else if c = '\x0c' then ['\\', 'f']
  else if c = '\x0d' then ['\\', 'r']
  else if c.toNat < 32 then ['\\', 'u', '0', '0', hexChar (c.toNat / 16), hexChar (c.toNat % 16)]
  else [c]

/-- JSON escape of a whole string body. -/
def escList : List Char → List Char
  | [] => []
  | c :: cs => escChar c ++ escList cs

/-- A rendered (quoted and escaped) JSON string. -/
def quoteL (s : List Char) : List Char := '"' :: escList s ++ ['"']

/-! ## `JSON.stringify` -/

mutual

/-- The serialized text of a value in a position where something is always
emitted (array elements; `undefined` renders as `null` there, exactly as
in JavaScript). Top-level `undefined` is handled by `jsStringify`, and
`undefined` object fields are skipped by `renderFields`, so this equation
for `undef` is only ever reached from array positions. -/
def renderL : JsValue → List Char
  | .undef => str2l "null"
  | .null => str2l "null"
  | .bool true => str2l "true"
  | .bool false => str2l "false"
  | .num n => intToChars n
  | .str s => quoteL s
  | .arr xs => '[' :: renderItems xs ++ [']']
  | .obj fs => '\x7b' :: renderFields fs ++ ['\x7d']

/-- Array elements, comma separated. -/
def renderItems : JsList → List Char
  | .nil => []
  | .cons v .nil => renderL v
  | .cons v vs => renderL v ++ ',' :: renderItems vs

/-- Object fields, comma separated, with fields whose value is `undefined`
omitted entirely (the `JSON.stringify` rule). -/
def renderFields : JsFields → List Char
  | .nil => []
  | .cons k v fs =>
    if isUndef v then renderFields fs
    else
      quoteL k ++ ':' :: renderL v ++
        (if hasEmittable fs then ',' :: renderFields fs else renderFields fs)

end

/-- `JSON.stringify`: JavaScript returns `undefined` (here `none`) for the
top-level `undefined` value and a string otherwise. -/
def jsStringify (v : JsValue) : Option (List Char) :=
  if isUndef v then none else some (renderL v)

/-! ## A JSON deserializer

The round-trip half of the marshalling claims needs an explicit
deserializer. `parseVal` consumes one JSON value from the head of the
input and returns the remainder; recursion is structural on a fuel
counter, and `jsonParse` instantiates the fuel with the input length,
which the round-trip proof shows is always sufficient for rendered
values. -/

/-- Greedily consume decimal digits, extending the accumulator. -/
def parseDigits : Nat → List Char → Nat × List Char
  | acc, [] => (acc, [])
  | acc, c :: r => if isDigitChar c then parseDigits (10 * acc + digitVal c) r else (acc, c :: r)

/-- The value of a hex digit character, if it is one. -/
def hexVal (c : Char) : Option Nat :=
  if isDigitChar c then some (c.toNat - 48)
  else if 'a' ≤ c && c ≤ 'f' then some (c.toNat - 87)
  else if 'A' ≤ c && c ≤ 'F' then some (c.toNat - 55)
  else none

/-- The character denoted by a single-letter escape. -/
def unescChar (e : Char) : Option Char :=
  if e = '"' then some '"'
  else if e = '\\' then some '\\'
  else if e = '/' then some '/'
  else if e = 'b' then some '\x08'
  else if e = 't' then some '\x09'
  else if e = 'n' then some '\x0a'
  else if e = 'f' then some '\x0c'
  else if e = 'r' then some '\x0d'
  else none

/-- Consume a string body (everything after the opening quote) up to and
including the closing quote, undoing escapes. Structural on fuel; each
step consumes at least one character, so fuel = input length suffices. -/
def parseStrBody : Nat → List Char → Option (List Char × List Char)
  | 0, _ => none
  | f + 1, l =>
    match l with
    | [] => none
    | c :: r =>
      if c = '"' then some ([], r)
      else if c = '\\' then
        match r with
        | [] => none
        | e :: r2 =>
          if e = 'u' then
            match r2 with
            | h1 :: h2 :: h3 :: h4 :: r3 =>
              match hexVal h1, hexVal h2, hexVal h3, hexVal h4 with
              | some a, some b, some d, some g =>
                (parseStrBody f r3).map
                  (fun p => (Char.ofNat (((a * 16 + b) * 16 + d) * 16 + g) :: p.1, p.2))
              | _, _, _, _ => none
            | _ => none
          else
            match unescChar e with
            | some u => (parseStrBody f r2).map (fun p => (u :: p.1, p.2))
            | none => none
      else
        (parseStrBody f r).map (fun p => (c :: p.1, p.2))

mutual

/-- Consume one JSON value from the head of the input. -/
def parseVal : Nat → List Char → Option (JsValue × List Char)
  | 0, _ => none
  | f + 1, l =>
    match l with
    | [] => none
    | c :: r =>
      if isDigitChar c then
        some (.num (Int.ofNat (parseDigits 0 (c :: r)).1), (parseDigits 0 (c :: r)).2)
      else if c = '-' then
        match r with
        | [] => none
        | d :: r2 =>
          if isDigitChar d then
            some (.num (-(Int.ofNat (parseDigits 0 (d :: r2)).1)), (parseDigits 0 (d :: r2)).2)
          else none
      else if c = 'n' then
        match r with
        | 'u' :: 'l' :: 'l' :: rest => some (.null, rest)
        | _ => none
      else if c = 't' then
        match r with
        | 'r' :: 'u' :: 'e' :: rest => some (.bool true, rest)
        | _ => none
      else if c = 'f' then
        match r with
        | 'a' :: 'l' :: 's' :: 'e' :: rest => some (.bool false, rest)
        | _ => none
      else if c = '"' then
        match parseStrBody r.length r with
        | some (s, rest2) => some (.str s, rest2)
        | none => none
      else if c = '[' then
        match r with
        | [] => none
        | c2 :: r2 =>
          if c2 = ']' then some (.arr .nil, r2)
          else
            match parseItems f (c2 :: r2) with
            | some (xs, rest2) => some (.arr xs, rest2)
            | none => none
      else if c = '\x7b' then
        match r with
        | [] => none
        | c2 :: r2 =>
          if c2 = '\x7d' then some (.obj .nil, r2)
          else
            match parseFields f (c2 :: r2) with
            | some (fs, rest2) => some (.obj fs, rest2)
            | none => none
      else none

/-- Consume one or more comma-separated values followed by the closing
bracket (the empty array is handled in `parseVal`). -/
def parseItems : Nat → List Char → Option (JsList × List Char)
  | 0, _ => none
  | f + 1, l =>
    match parseVal f l with
    | none => none
    | some (v, r) =>
      match r with
      | [] => none
      | c :: r2 =>
        if c = ',' then
          match parseItems f r2 with
          | some (vs, r3) => some (.cons v vs, r3)
          | none => none
        else if c = ']' then some (.cons v .nil, r2)
        else none

/-- Consume one or more comma-separated fields followed by the closing
brace (the empty object is handled in `parseVal`). -/
def parseFields : Nat → List Char → Option (JsFields × List Char)
  | 0, _ => none
  | f + 1, l =>
    match l with
    | [] => none
    | c :: r =>
      if c = '"' then
        match parseStrBody r.length r with
        | some (k, r1) =>
          match r1 with
          | [] => none
          | c1 :: r2 =>
            if c1 = ':' then
              match parseVal f r2 with
              | some (v, r3) =>
                match r3 with
                | [] => none
                | c2 :: r4 =>
                  if c2 = ',' then
                    match parseFields f r4 with
                    | some (fs, r5) => some (.cons k v fs, r5)
                    | none => none
                  else if c2 = '\x7d' then some (.cons k v .nil, r4)
                  else none
              | none => none
            else none
        | none => none
      else none

end

/-- Deserialize a complete JSON document (no trailing characters). -/
def jsonParse (l : List Char) : Option JsValue :=
  match parseVal l.length l with
  | some (v, []) => some v
  | _ => none

/-! ## JSON-representable values

`isPlain` holds for the values `JSON.stringify` represents faithfully:
no `undefined` anywhere (an `undefined` is dropped from objects and
flattened to `null` in arrays, so it cannot survive a round-trip). -/

mutual

/-- No `undefined` anywhere in the value. -/
def isPlain : JsValue → Bool
  | .undef => false
  | .null => true
  | .bool _ => true
  | .num _ => true
  | .str _ => true
  | .arr xs => isPlainList xs
  | .obj fs => isPlainFields fs

/-- No `undefined` anywhere in the list. -/
def isPlainList : JsList → Bool
  | .nil => true
  | .cons v vs => isPlain v && isPlainList vs

/-- No `undefined` anywhere in the field values. -/
def isPlainFields : JsFields → Bool
  | .nil => true
  | .cons _ v fs => isPlain v && isPlainFields fs

end

/-! ## The `MessageHandler` adapter

The embedding of `bindings/nodejs/lib/MessageHandler.ts`. The native
entry points imported from `./bindings` are Rust code outside the
embedded source; they are abstracted as a record of functions
(`NativeEngine`) over an opaque handle type `H` and error type `E`.
Fallible native calls return `Except E _`, modelling a JS throw /
promise rejection. Every call into the native layer is also recorded in
an explicit `NativeCall` trace, and every operation returns the
post-state of any JS object the source could have mutated (the options
argument for the constructor, the `MessageHandler` instance for the
methods), so absence of mutation and "called exactly once" are provable
statements rather than artefacts of purity. -/

/-- One call into the native layer. String arguments are
`Option (List Char)` because `JSON.stringify` can produce `undefined`. -/
inductive NativeCall : Type where
  | newCall (arg : Option (List Char)) : NativeCall
  | sendCall (arg : Option (List Char)) : NativeCall
  | listenCall (eventTypes : List (List Char)) : NativeCall

deriving instance DecidableEq for NativeCall

/-- The native entry points imported from `./bindings`, abstracted as
functions over an opaque handle type `H` and error type `E`. -/
structure NativeEngine (H E : Type) where
  messageHandlerNew : Option (List Char) → Except E H
  sendMessageAsync : Option (List Char) → H → Except E (List Char)

/-- The constructor argument: `storagePath`, `clientOptions` and
`secretManager` are the properties the constructor reads (any of them may
be `undefined`); `extra` models whatever other properties the caller put
on the object, which the constructor never touches. -/
structure AccountManagerOptions where
  storagePath : JsValue
  clientOptions : JsValue
  secretManager : JsValue
  extra : JsFields

/-- The `messageOptions` object literal the constructor builds:
`\x7b storagePath: options.storagePath,
clientOptions: JSON.stringify(options.clientOptions),
secretManager: JSON.stringify(options.secretManager) \x7d`.
An inner `JSON.stringify` that returns `undefined` leaves the field
holding `undefined`, exactly as in JavaScript. -/
def messageOptionsObj (options : AccountManagerOptions) : JsValue :=
  .obj (.cons (str2l "storagePath") options.storagePath
       (.cons (str2l "clientOptions")
          ((jsStringify options.clientOptions).elim .undef .str)
       (.cons (str2l "secretManager")
          ((jsStringify options.secretManager).elim .undef .str) .nil)))

/-- The adapter instance: its only field is the opaque handle obtained
from the native constructor. -/
structure MessageHandler (H : Type) where
  messageHandler : H

/-- The constructor: builds `messageOptions`, serializes it, and calls
`messageHandlerNew` once with the result, storing the returned handle.
The result triple is (post-state of the options argument, construction
result, native-call trace); a native error propagates as `Except.error`. -/
def MessageHandler.construct (eng : NativeEngine H E) (options : AccountManagerOptions) :
    AccountManagerOptions × Except E (MessageHandler H) × List NativeCall :=
  let arg := jsStringify (messageOptionsObj options)
  (options,
   match eng.messageHandlerNew arg with
   | .error e => .error e
   | .ok h => .ok ⟨h⟩,
   [.newCall arg])

/-- `sendMessage`: serializes the message and forwards it, together with
the stored handle, to `sendMessageAsync`. The result triple is
(post-state of the instance, native result, native-call trace). -/
def MessageHandler.sendMessage (eng : NativeEngine H E) (self : MessageHandler H)
    (message : JsValue) :
    MessageHandler H × Except E (List Char) × List NativeCall :=
  (self,
   eng.sendMessageAsync (jsStringify message) self.messageHandler,
   [.sendCall (jsStringify message)])

/-- `callAccountMethod`: builds the
`\x7b cmd: 'CallAccountMethod', payload: \x7b accountId, method \x7d \x7d`
envelope and delegates to `sendMessage`. -/
def MessageHandler.callAccountMethod (eng : NativeEngine H E) (self : MessageHandler H)
    (accountIndex method : JsValue) :
    MessageHandler H × Except E (List Char) × List NativeCall :=
  MessageHandler.sendMessage eng self
    (.obj (.cons (str2l "cmd") (.str (str2l "CallAccountMethod"))
          (.cons (str2l "payload")
             (.obj (.cons (str2l "accountId") accountIndex
                   (.cons (str2l "method") method .nil))) .nil)))

/-! ## Event listening

The adapter's `listen` forwards the event types, the callback and the
handle to the native `listen` entry point; the registration bookkeeping
and the later dispatch live in the Rust bindings, outside the embedded
source, so they are modelled from the specification. Callbacks are kept
abstract (type `C`); an `Invocation` records one call of a callback with
its error and result arguments. -/

/-- One registered listener: a set of event types and a callback. -/
structure Subscription (C : Type) where
  eventTypes : List (List Char)
  callback : C

/-- One invocation of a callback, with its `(error, result)` arguments. -/
structure Invocation (C : Type) where
  callback : C
  error : Option (List Char)
  result : List Char

/-- Modelled from the spec: the native `listen` entry point (in the Rust
bindings, not in the embedded source) registers the callback against the
given list of event-type identifiers, adding one subscription to the
engine's registration state. -/
def nativeListen (subs : List (Subscription C)) (eventTypes : List (List Char))
    (callback : C) : List (Subscription C) :=
  subs ++ [⟨eventTypes, callback⟩]

/-- Modelled from the spec: native event dispatch (in the Rust bindings,
not in the embedded source) invokes the callback of each subscription
whose event-type list contains the event's type, exactly once, with the
serialized result string and no error. -/
def dispatchEvent (subs : List (Subscription C)) (eventType : List Char)
    (result : List Char) : List (Invocation C) :=
  (subs.filter (fun s => decide (eventType ∈ s.eventTypes))).map
    (fun s => ⟨s.callback, none, result⟩)

/-- The adapter's `listen`: forwards event types, callback and handle to
the native registration. The result is (post-state of the instance, new
registration state, native-call trace). -/
def MessageHandler.listen (self : MessageHandler H) (subs : List (Subscription C))
    (eventTypes : List (List Char)) (callback : C) :
    MessageHandler H × List (Subscription C) × List NativeCall :=
  (self, nativeListen subs eventTypes callback, [.listenCall eventTypes])

/-! ## Accessors used by the statements -/

/-- The field list of an object value. -/
def objFields : JsValue → JsFields
  | .obj fs => fs
  | _ => .nil

/-- First-match lookup of a key in a field list. -/
def fieldsLookup : JsFields → List Char → Option JsValue
  | .nil, _ => none
  | .cons k v fs, key => if k = key then some v else fieldsLookup fs key

/-- The keys of a field list, in order. -/
def fieldsKeys : JsFields → List (List Char)
  | .nil => []
  | .cons k _ fs => k :: fieldsKeys fs

/-! ## Concrete fixtures for the witnesses -/

/-- A native engine whose entry points succeed. -/
def engOk : NativeEngine Nat (List Char) :=
  ⟨fun _ => .ok 7, fun _ _ => .ok (str2l "\x7b\"ok\":true\x7d")⟩

/-- A native engine whose entry points fail. -/
def engErr : NativeEngine Nat (List Char) :=
  ⟨fun _ => .error (str2l "constructor blew up"),
   fun _ _ => .error (str2l "send blew up")⟩

/-- A fully populated configuration object. -/
def optsFull : AccountManagerOptions :=
  ⟨.str (str2l "./alice-database"),
   .obj (.cons (str2l "nodes") (.arr (.cons (.str (str2l "https://example.node")) .nil)) .nil),
   .obj (.cons (str2l "snapshotPath") (.str (str2l "./wallet.stronghold")) .nil),
   .cons (str2l "unrelated") (.num 5) .nil⟩

/-- A configuration object with both option sub-objects undefined. -/
def optsBare : AccountManagerOptions :=
  ⟨.str (str2l "./db"), .undef, .undef, .nil⟩

/-- A sample message payload: the envelope `callAccountMethod` builds for
account identifier `0` and a `GenerateAddresses` method descriptor. -/
def msgSample : JsValue :=
  .obj (.cons (str2l "cmd") (.str (str2l "CallAccountMethod"))
       (.cons (str2l "payload")
          (.obj (.cons (str2l "accountId") (.num 0)
                (.cons (str2l "method")
                   (.obj (.cons (str2l "name") (.str (str2l "GenerateAddresses"))
                         (.cons (str2l "amount") (.num 2) .nil))) .nil))) .nil))

/-! # Theorems -/

/-! ## Small rendering facts shared by several claims -/

/-- A field whose value is `undefined` contributes nothing to the rendered
field list. -/
theorem renderFields_undef_cons (k : List Char) (fs : JsFields) :
    renderFields (.cons k .undef fs) = renderFields fs := by
  simp [renderFields, isUndef]

/-- A field whose value is `undefined` does not affect whether any field
is emitted. -/
theorem hasEmittable_undef_cons (k : List Char) (fs : JsFields) :
    hasEmittable (.cons k .undef fs) = hasEmittable fs := by
  simp [hasEmittable, isUndef]

/-! ## C1: `callAccountMethod` delegates to `sendMessage` -/

/-- C1: for every account identifier `a` and method descriptor `m`,
`callAccountMethod a m` returns exactly what `sendMessage` returns on the
envelope whose `cmd` is `CallAccountMethod` and whose `payload` is the
two-field object `\x7b accountId: a, method: m \x7d` (no other fields). -/
theorem callAccountMethod_eq_sendMessage_envelope (eng : NativeEngine H E)
    (self : MessageHandler H) (a m : JsValue) :
    MessageHandler.callAccountMethod eng self a m =
      MessageHandler.sendMessage eng self
        (.obj (.cons (str2l "cmd") (.str (str2l "CallAccountMethod"))
              (.cons (str2l "payload")
                 (.obj (.cons (str2l "accountId") a
                       (.cons (str2l "method") m .nil))) .nil))) := rfl

/-! ## C3: construction calls the native constructor exactly once -/

/-- C3: constructing from any configuration serializes the client options
and the secret-manager options to text, combines them with the storage
path into the three-field bundle, performs exactly one native call —
`messageHandlerNew` on the serialized bundle — and, when that call
returns a handle, produces exactly one adapter holding that handle. -/
theorem construct_one_native_call (eng : NativeEngine H E)
    (o : AccountManagerOptions) (h : H)
    (hok : eng.messageHandlerNew (jsStringify (messageOptionsObj o)) = .ok h) :
    MessageHandler.construct eng o =
      (o, .ok ⟨h⟩,
       [.newCall (jsStringify (.obj
          (.cons (str2l "storagePath") o.storagePath
          (.cons (str2l "clientOptions") ((jsStringify o.clientOptions).elim .undef .str)
          (.cons (str2l "secretManager") ((jsStringify o.secretManager).elim .undef .str)
            .nil)))))]) := by
  simp only [messageOptionsObj] at hok
  simp [MessageHandler.construct, messageOptionsObj, hok]

/-- Witness for C3 at a concrete engine and configuration. -/
theorem construct_one_native_call_witness :
    MessageHandler.construct engOk optsFull =
      (optsFull, .ok ⟨7⟩,
       [.newCall (jsStringify (.obj
          (.cons (str2l "storagePath") optsFull.storagePath
          (.cons (str2l "clientOptions") ((jsStringify optsFull.clientOptions).elim .undef .str)
          (.cons (str2l "secretManager") ((jsStringify optsFull.secretManager).elim .undef .str)
            .nil)))))]) :=
  construct_one_native_call engOk optsFull 7 rfl

/-! ## C4: construction does not mutate the configuration -/

/-- C4: the options object (with its sub-objects) is returned unchanged
as the post-state of the constructor's argument: the constructor assigns
to no field of it. -/
theorem construct_preserves_options (eng : NativeEngine H E)
    (o : AccountManagerOptions) :
    (MessageHandler.construct eng o).1 = o := rfl

/-! ## C5: native failures propagate unchanged -/

/-- C5: a native failure in `messageHandlerNew` surfaces as exactly that
construction error, and a native failure in `sendMessageAsync` surfaces as
exactly that send error; the adapter neither catches nor translates. -/
theorem native_errors_propagate (eng : NativeEngine H E)
    (o : AccountManagerOptions) (self : MessageHandler H) (msg : JsValue)
    (e1 e2 : E)
    (h1 : eng.messageHandlerNew (jsStringify (messageOptionsObj o)) = .error e1)
    (h2 : eng.sendMessageAsync (jsStringify msg) self.messageHandler = .error e2) :
    (MessageHandler.construct eng o).2.1 = .error e1 ∧
    (MessageHandler.sendMessage eng self msg).2.1 = .error e2 := by
  constructor
  · simp [MessageHandler.construct, h1]
  · simp [MessageHandler.sendMessage, h2]

/-- Witness for C5 at a concrete failing engine. -/
theorem native_errors_propagate_witness :
    (MessageHandler.construct engErr optsFull).2.1 = .error (str2l "constructor blew up") ∧
    (MessageHandler.sendMessage engErr ⟨7⟩ msgSample).2.1 = .error (str2l "send blew up") :=
  native_errors_propagate engErr optsFull ⟨7⟩ msgSample
    (str2l "constructor blew up") (str2l "send blew up") rfl rfl

/-! ## C6: the handle is assigned once and never modified -/

/-- C6: the `messageHandler` field is set at construction to the value the
native constructor returned, and `sendMessage`, `callAccountMethod` and
`listen` all leave the instance unchanged. -/
theorem messageHandler_field_invariant (eng : NativeEngine H E)
    (o : AccountManagerOptions) (h : H) (self : MessageHandler H)
    (msg a m : JsValue) (subs : List (Subscription C))
    (ets : List (List Char)) (cb : C)
    (hok : eng.messageHandlerNew (jsStringify (messageOptionsObj o)) = .ok h) :
    (MessageHandler.construct eng o).2.1 = .ok ⟨h⟩ ∧
    (MessageHandler.sendMessage eng self msg).1 = self ∧
    (MessageHandler.callAccountMethod eng self a m).1 = self ∧
    (MessageHandler.listen self subs ets cb).1 = self := by
  refine ⟨?_, rfl, rfl, rfl⟩
  simp [MessageHandler.construct, hok]

/-- Witness for C6 at a concrete engine, configuration and instance. -/
theorem messageHandler_field_invariant_witness :
    (MessageHandler.construct engOk optsFull).2.1 = .ok ⟨7⟩ ∧
    (MessageHandler.sendMessage engOk ⟨7⟩ msgSample).1 = (⟨7⟩ : MessageHandler Nat) ∧
    (MessageHandler.callAccountMethod engOk ⟨7⟩ (.num 0) (.str (str2l "m"))).1
      = (⟨7⟩ : MessageHandler Nat) ∧
    (MessageHandler.listen (⟨7⟩ : MessageHandler Nat) ([] : List (Subscription Nat))
      [str2l "NewOutput"] 0).1 = (⟨7⟩ : MessageHandler Nat) :=
  messageHandler_field_invariant engOk optsFull 7 ⟨7⟩ msgSample (.num 0)
    (.str (str2l "m")) [] [str2l "NewOutput"] 0 rfl

/-! ## C7: a registered listener fires exactly once per matching event -/

/-- C7: after registering a callback for event types `[e1, e2]` on a fresh
adapter, dispatching a native event of type `e1` produces exactly one
invocation: the registered callback, called with the serialized result
and no error. -/
theorem listen_dispatch_exactly_once (self : MessageHandler H)
    (e1 e2 r : List Char) (cb : C) :
    dispatchEvent ((MessageHandler.listen self [] [e1, e2] cb).2.1) e1 r
      = [⟨cb, none, r⟩] := by
  simp [MessageHandler.listen, nativeListen, dispatchEvent]

/-! ## C8: the bundle double-encodes the two option sub-objects -/

/-- C8: when `clientOptions` and `secretManager` are present, each is
first serialized to its own JSON text, and the bundle carries that text
as a JSON *string* field (not as a nested object): looking the keys up in
the bundle yields string values holding the inner serializations. -/
theorem bundle_double_encodes_options (o : AccountManagerOptions)
    (hc : isUndef o.clientOptions = false)
    (hs : isUndef o.secretManager = false) :
    jsStringify o.clientOptions = some (renderL o.clientOptions) ∧
    jsStringify o.secretManager = some (renderL o.secretManager) ∧
    fieldsLookup (objFields (messageOptionsObj o)) (str2l "clientOptions")
      = some (.str (renderL o.clientOptions)) ∧
    fieldsLookup (objFields (messageOptionsObj o)) (str2l "secretManager")
      = some (.str (renderL o.secretManager)) := by
  refine ⟨by simp [jsStringify, hc], by simp [jsStringify, hs], ?_, ?_⟩ <;>
    simp [messageOptionsObj, objFields, fieldsLookup, jsStringify, hc, hs, str2l]

/-- Witness for C8 at a concrete configuration. -/
theorem bundle_double_encodes_options_witness :
    jsStringify optsFull.clientOptions = some (renderL optsFull.clientOptions) ∧
    jsStringify optsFull.secretManager = some (renderL optsFull.secretManager) ∧
    fieldsLookup (objFields (messageOptionsObj optsFull)) (str2l "clientOptions")
      = some (.str (renderL optsFull.clientOptions)) ∧
    fieldsLookup (objFields (messageOptionsObj optsFull)) (str2l "secretManager")
      = some (.str (renderL optsFull.secretManager)) :=
  bundle_double_encodes_options optsFull rfl rfl

/-! ## C9: undefined option sub-objects vanish from the bundle -/

/-- C9: if `clientOptions` (likewise `secretManager`) is undefined, its
inner serialization is `undefined` (`none`), and the serialized bundle is
exactly the serialization of the object *without* that key: the key is
omitted entirely rather than carrying `null` or an empty value. -/
theorem bundle_omits_undefined_options (o : AccountManagerOptions) :
    (o.clientOptions = .undef →
       jsStringify o.clientOptions = none ∧
       renderL (messageOptionsObj o) =
         renderL (.obj (.cons (str2l "storagePath") o.storagePath
           (.cons (str2l "secretManager")
              ((jsStringify o.secretManager).elim .undef .str) .nil)))) ∧
    (o.secretManager = .undef →
       jsStringify o.secretManager = none ∧
       renderL (messageOptionsObj o) =
         renderL (.obj (.cons (str2l "storagePath") o.storagePath
           (.cons (str2l "clientOptions")
              ((jsStringify o.clientOptions).elim .undef .str) .nil)))) := by
  constructor
  · intro hc
    refine ⟨by simp [jsStringify, hc, isUndef], ?_⟩
    simp only [messageOptionsObj]
    rcases hsm : jsStringify o.secretManager with _ | s <;>
      cases hsp : isUndef o.storagePath <;>
        simp [hc, jsStringify, isUndef, Option.elim, renderL, renderFields,
          hasEmittable, hsp]
  · intro hs
    refine ⟨by simp [jsStringify, hs, isUndef], ?_⟩
    simp only [messageOptionsObj]
    rcases hco : jsStringify o.clientOptions with _ | s <;>
      cases hsp : isUndef o.storagePath <;>
        simp [hs, jsStringify, isUndef, Option.elim, renderL, renderFields,
          hasEmittable, hsp]

/-- Witness for C9 at a configuration with both sub-options undefined. -/
theorem bundle_omits_undefined_options_witness :
    (jsStringify optsBare.clientOptions = none ∧
     renderL (messageOptionsObj optsBare) =
       renderL (.obj (.cons (str2l "storagePath") optsBare.storagePath
         (.cons (str2l "secretManager")
            ((jsStringify optsBare.secretManager).elim .undef .str) .nil)))) ∧
    (jsStringify optsBare.secretManager = none ∧
     renderL (messageOptionsObj optsBare) =
       renderL (.obj (.cons (str2l "storagePath") optsBare.storagePath
         (.cons (str2l "clientOptions")
            ((jsStringify optsBare.clientOptions).elim .undef .str) .nil)))) :=
  ⟨(bundle_omits_undefined_options optsBare).1 rfl,
   (bundle_omits_undefined_options optsBare).2 rfl⟩

/-! ## C10: the bundle has exactly the three fixed keys -/

/-- C10: whatever the configuration, the bundle object holds exactly the
keys `storagePath`, `clientOptions`, `secretManager`, and any other
property of the input configuration leaves the bundle unchanged — extra
properties never cross the native boundary. -/
theorem bundle_keys_fixed (sp co sm : JsValue) (extra extra' : JsFields) :
    fieldsKeys (objFields (messageOptionsObj ⟨sp, co, sm, extra⟩)) =
      [str2l "storagePath", str2l "clientOptions", str2l "secretManager"] ∧
    messageOptionsObj ⟨sp, co, sm, extra⟩ = messageOptionsObj ⟨sp, co, sm, extra'⟩ :=
  ⟨rfl, rfl⟩

/-! ## Round-trip, part 1: decimal digits -/

/-- Every character `digitChar` produces is a decimal digit. -/
theorem digitChar_isDigit (d : Nat) : isDigitChar (digitChar d) = true := by
  unfold digitChar
  split <;> decide

/-- `digitVal` inverts `digitChar` on actual digits. -/
theorem digitVal_digitChar (d : Nat) (h : d < 10) : digitVal (digitChar d) = d := by
  interval_cases d <;> decide

/-- Scanning the digits of `n` extends the accumulator by `n`, shifted by
the matching power of ten. -/
theorem parseDigits_natToCharsAux :
    ∀ f n, n ≤ f → ∀ (acc : Nat) (rest : List Char),
      parseDigits acc (natToCharsAux f n ++ rest) =
        parseDigits (acc * pow10Aux f n + n) rest := by
  intro f
  induction f with
  | zero =>
    intro n hn acc rest
    interval_cases n
    simp [natToCharsAux, pow10Aux, parseDigits, digitChar, isDigitChar, digitVal]
    congr 1
    omega
  | succ f ih =>
    intro n hn acc rest
    by_cases h10 : n < 10
    · simp [natToCharsAux, pow10Aux, h10, parseDigits, digitChar_isDigit,
        digitVal_digitChar n h10, Nat.mul_comm]
    · have hdiv : n / 10 ≤ f := by omega
      have hm : n % 10 < 10 := Nat.mod_lt _ (by omega)
      simp only [natToCharsAux, pow10Aux, if_neg h10, List.append_assoc,
        List.singleton_append]
      rw [ih (n / 10) hdiv acc (digitChar (n % 10) :: rest)]
      simp [parseDigits, digitChar_isDigit, digitVal_digitChar _ hm]
      congr 1
      have hswap : acc * (10 * pow10Aux f (n / 10)) = 10 * (acc * pow10Aux f (n / 10)) := by
        ring
      rw [hswap]
      generalize acc * pow10Aux f (n / 10) = X
      omega

/-- A greedy digit scan stops at a digit boundary. -/
theorem parseDigits_stop (m : Nat) (rest : List Char)
    (h : digitBoundary rest = true) : parseDigits m rest = (m, rest) := by
  cases rest with
  | nil => rfl
  | cons c r =>
    simp [digitBoundary] at h
    simp [parseDigits, h]

/-- Scanning the decimal rendering of `n` yields `n` and stops exactly at
its end, whenever the remainder does not begin with a digit. -/
theorem parseDigits_natToChars (n : Nat) (rest : List Char)
    (h : digitBoundary rest = true) :
    parseDigits 0 (natToChars n ++ rest) = (n, rest) := by
  unfold natToChars
  rw [parseDigits_natToCharsAux n n le_rfl 0 rest]
  simpa using parseDigits_stop n rest h

/-- The digits of `n` form a nonempty list starting with a digit. -/
theorem natToCharsAux_cons :
    ∀ f n, ∃ c cs, natToCharsAux f n = c :: cs ∧ isDigitChar c = true := by
  intro f
  induction f with
  | zero => exact fun n => ⟨digitChar n, [], rfl, digitChar_isDigit n⟩
  | succ f ih =>
    intro n
    by_cases h10 : n < 10
    · exact ⟨digitChar n, [], by simp [natToCharsAux, h10], digitChar_isDigit n⟩
    · obtain ⟨c, cs, heq, hc⟩ := ih (n / 10)
      exact ⟨c, cs ++ [digitChar (n % 10)], by simp [natToCharsAux, h10, heq], hc⟩

/-- The decimal rendering of `n` is nonempty and starts with a digit. -/
theorem natToChars_cons (n : Nat) :
    ∃ c cs, natToChars n = c :: cs ∧ isDigitChar c = true :=
  natToCharsAux_cons n n

/-! ## Round-trip, part 2: string escaping -/

/-- `hexVal` inverts `hexChar` on the hex range. -/
theorem hexVal_hexChar (d : Nat) (h : d < 16) : hexVal (hexChar d) = some d := by
  interval_cases d <;> decide

/-- Undoing one escape: consuming the escape of `c` prepends `c` and
continues with one unit of fuel spent. -/
theorem parseStrBody_escChar (c : Char) (f : Nat) (t : List Char) :
    parseStrBody (f + 1) (escChar c ++ t) =
      (parseStrBody f t).map (fun p => (c :: p.1, p.2)) := by
  unfold escChar
  split_ifs with h1 h2 h3 h4 h5 h6 h7 h8
  · subst h1; simp [parseStrBody, unescChar]
  · subst h2; simp [parseStrBody, unescChar]
  · subst h3; simp [parseStrBody, unescChar]
  · subst h4; simp [parseStrBody, unescChar]
  · subst h5; simp [parseStrBody, unescChar]
  · subst h6; simp [parseStrBody, unescChar]
  · subst h7; simp [parseStrBody, unescChar]
  · have hhi : c.toNat / 16 < 16 := by omega
    have hlo : c.toNat % 16 < 16 := by omega
    have hdm : c.toNat / 16 * 16 + c.toNat % 16 = c.toNat := by omega
    have h0 : hexVal '0' = some 0 := by decide
    simp [parseStrBody, h0, hexVal_hexChar _ hhi, hexVal_hexChar _ hlo, hdm,
      Char.ofNat_toNat]
  · simp [parseStrBody, h1, h2]

/-- Escaping can only lengthen a string. -/
theorem escList_length_ge : ∀ s : List Char, s.length ≤ (escList s).length := by
  intro s
  induction s with
  | nil => simp [escList]
  | cons c cs ih =>
    have h1 : 1 ≤ (escChar c).length := by
      unfold escChar
      split_ifs <;> simp
    simp only [escList, List.length_append, List.length_cons]
    omega

/-- Consuming an escaped string body up to its closing quote recovers the
original string, given fuel at least its length plus one. -/
theorem parseStrBody_escList :
    ∀ (s : List Char) (f : Nat) (t : List Char), s.length + 1 ≤ f →
      parseStrBody f (escList s ++ '"' :: t) = some (s, t) := by
  intro s
  induction s with
  | nil =>
    intro f t hf
    cases f with
    | zero => omega
    | succ f => simp [escList, parseStrBody]
  | cons c cs ih =>
    intro f t hf
    cases f with
    | zero => simp at hf
    | succ f =>
      have heq : escList (c :: cs) ++ '"' :: t = escChar c ++ (escList cs ++ '"' :: t) := by
        simp [escList]
      rw [heq, parseStrBody_escChar, ih f t (by simp at hf; omega)]
      rfl

/-! ## Round-trip, part 3: rendered values and their first character -/

/-- A digit is not a closing delimiter or separator. -/
theorem isDigitChar_ne_delims {c : Char} (h : isDigitChar c = true) :
    c ≠ ']' ∧ c ≠ '\x7d' ∧ c ≠ ',' := by
  refine ⟨?_, ?_, ?_⟩ <;> (rintro rfl; exact absurd h (by decide))

/-- A JSON-representable value is not `undefined`. -/
theorem isPlain_not_undef : ∀ {v : JsValue}, isPlain v = true → isUndef v = false := by
  intro v h
  cases v <;> simp_all [isPlain, isUndef]

/-- A nonempty field list with no `undefined` values has an emitted field. -/
theorem hasEmittable_of_plain :
    ∀ {fs : JsFields}, isPlainFields fs = true → fs ≠ .nil → hasEmittable fs = true := by
  intro fs h hne
  cases fs with
  | nil => exact absurd rfl hne
  | cons k v fs =>
    simp [isPlainFields] at h
    simp [hasEmittable, isPlain_not_undef h.1]

/-- Every rendered value starts with a character that is not a closing
delimiter. -/
theorem renderL_cons (v : JsValue) :
    ∃ c t, renderL v = c :: t ∧ c ≠ ']' ∧ c ≠ '\x7d' := by
  cases v with
  | undef => exact ⟨'n', str2l "ull", rfl, by decide, by decide⟩
  | null => exact ⟨'n', str2l "ull", rfl, by decide, by decide⟩
  | bool b =>
    cases b with
    | true => exact ⟨'t', str2l "rue", rfl, by decide, by decide⟩
    | false => exact ⟨'f', str2l "alse", rfl, by decide, by decide⟩
  | num n =>
    by_cases hn : n < 0
    · exact ⟨'-', natToChars n.natAbs, by simp [renderL, intToChars, hn], by decide, by decide⟩
    · obtain ⟨c, cs, heq, hc⟩ := natToChars_cons n.natAbs
      obtain ⟨h1, h2, _⟩ := isDigitChar_ne_delims hc
      exact ⟨c, cs, by simp [renderL, intToChars, hn, heq], h1, h2⟩
  | str s => exact ⟨'"', escList s ++ ['"'], rfl, by decide, by decide⟩
  | arr xs => exact ⟨'[', renderItems xs ++ [']'], rfl, by decide, by decide⟩
  | obj fs => exact ⟨'\x7b', renderFields fs ++ ['\x7d'], rfl, by decide, by decide⟩

/-- Rendered values are nonempty. -/
theorem renderL_length_pos (v : JsValue) : 1 ≤ (renderL v).length := by
  obtain ⟨c, t, heq, h1, h2⟩ := renderL_cons v
  simp [heq]

/-! ## Round-trip, part 4: parsing each kind of rendered scalar -/

/-- Parsing rendered `null`. -/
theorem parseVal_null (f : Nat) (rest : List Char) :
    parseVal (f + 1) (str2l "null" ++ rest) = some (.null, rest) := by
  have h : isDigitChar 'n' = false := by decide
  simp [str2l, parseVal, h]

/-- Parsing rendered `true`. -/
theorem parseVal_true (f : Nat) (rest : List Char) :
    parseVal (f + 1) (str2l "true" ++ rest) = some (.bool true, rest) := by
  have h : isDigitChar 't' = false := by decide
  simp [str2l, parseVal, h]

/-- Parsing rendered `false`. -/
theorem parseVal_false (f : Nat) (rest : List Char) :
    parseVal (f + 1) (str2l "false" ++ rest) = some (.bool false, rest) := by
  have h : isDigitChar 'f' = false := by decide
  simp [str2l, parseVal, h]

/-- Parsing a rendered integer, at any digit boundary. -/
theorem parseVal_num (n : Int) (f : Nat) (rest : List Char)
    (hb : digitBoundary rest = true) :
    parseVal (f + 1) (intToChars n ++ rest) = some (.num n, rest) := by
  obtain ⟨c, cs, heq, hc⟩ := natToChars_cons n.natAbs
  have hpd : parseDigits 0 (c :: (cs ++ rest)) = (n.natAbs, rest) := by
    have h := parseDigits_natToChars n.natAbs rest hb
    rw [heq] at h
    simpa using h
  by_cases hn : n < 0
  · have harg : intToChars n ++ rest = '-' :: c :: (cs ++ rest) := by
      simp [intToChars, hn, heq]
    rw [harg]
    have hd : isDigitChar '-' = false := by decide
    simp only [parseVal]
    simp [hd, hc, hpd, Int.ofNat_eq_natCast, abs_of_neg hn]
  · have harg : intToChars n ++ rest = c :: (cs ++ rest) := by
      simp [intToChars, hn, heq]
    rw [harg]
    simp only [parseVal]
    simp [hc, hpd, Int.ofNat_eq_natCast]
    omega

/-- Parsing a rendered (quoted, escaped) string. -/
theorem parseVal_str (s : List Char) (f : Nat) (rest : List Char) :
    parseVal (f + 1) (quoteL s ++ rest) = some (.str s, rest) := by
  have harg : quoteL s ++ rest = '"' :: (escList s ++ '"' :: rest) := by
    simp [quoteL]
  rw [harg]
  have hq : isDigitChar '"' = false := by decide
  have hlen : s.length + 1 ≤ (escList s).length + (rest.length + 1) := by
    have := escList_length_ge s
    omega
  simp only [parseVal]
  simp [hq, parseStrBody_escList s ((escList s).length + (rest.length + 1)) rest hlen]

/-- Parsing a field list that starts with a rendered key: the quoted key
is consumed whole and parsing continues after its closing quote. -/
theorem parseFields_key (f : Nat) (k : List Char) (t : List Char) :
    parseFields (f + 1) ('"' :: (escList k ++ '"' :: t)) =
      (match t with
       | [] => none
       | c1 :: r2 =>
         if c1 = ':' then
           match parseVal f r2 with
           | some (v, r3) =>
             match r3 with
             | [] => none
             | c2 :: r4 =>
               if c2 = ',' then
                 match parseFields f r4 with
                 | some (fs, r5) => some (.cons k v fs, r5)
                 | none => none
               else if c2 = '\x7d' then some (.cons k v .nil, r4)
               else none
           | none => none
         else none) := by
  have hlen : k.length + 1 ≤ (escList k ++ '"' :: t).length := by
    have := escList_length_ge k
    simp only [List.length_append, List.length_cons]
    omega
  simp only [parseFields]
  rw [parseStrBody_escList k ((escList k ++ '"' :: t).length) t hlen]
  simp

/-! ## Round-trip, part 5: the main induction on fuel -/

/-- Parsing inverts rendering: with any sufficient fuel, a rendered
JSON-representable value (resp. a rendered nonempty item or field list
followed by its closing delimiter) parses back to itself, leaving exactly
the remainder, whenever the remainder opens at a digit boundary. -/
theorem parse_render_fuel :
    ∀ f : Nat,
      (∀ v rest, isPlain v = true → (renderL v).length ≤ f →
        digitBoundary rest = true →
        parseVal f (renderL v ++ rest) = some (v, rest)) ∧
      (∀ xs rest, xs ≠ JsList.nil → isPlainList xs = true →
        (renderItems xs).length + 1 ≤ f →
        parseItems f (renderItems xs ++ ']' :: rest) = some (xs, rest)) ∧
      (∀ fs rest, fs ≠ JsFields.nil → isPlainFields fs = true →
        (renderFields fs).length + 1 ≤ f →
        parseFields f (renderFields fs ++ '\x7d' :: rest) = some (fs, rest)) := by
  intro f
  induction f with
  | zero =>
    refine ⟨?_, ?_, ?_⟩
    · intro v rest _ hlen _
      have := renderL_length_pos v
      omega
    · intro xs rest _ _ hlen
      omega
    · intro fs rest _ _ hlen
      omega
  | succ f ih =>
    obtain ⟨ihV, ihI, ihF⟩ := ih
    refine ⟨?_, ?_, ?_⟩
    · intro v rest hp hlen hb
      cases v with
      | undef => simp [isPlain] at hp
      | null => simpa [renderL] using parseVal_null f rest
      | bool b =>
        cases b with
        | true => simpa [renderL] using parseVal_true f rest
        | false => simpa [renderL] using parseVal_false f rest
      | num n => simpa [renderL] using parseVal_num n f rest hb
      | str s => simpa [renderL] using parseVal_str s f rest
      | arr xs =>
        cases xs with
        | nil =>
          have h1 : isDigitChar '[' = false := by decide
          simp [renderL, renderItems, parseVal, h1]
        | cons v vs =>
          obtain ⟨c0, t0, hv0, hne1, hne2⟩ := renderL_cons v
          have hplist : isPlainList (JsList.cons v vs) = true := by
            simpa [isPlain] using hp
          have hfuel : (renderItems (JsList.cons v vs)).length + 1 ≤ f := by
            simp [renderL] at hlen
            omega
          have hitems := ihI (JsList.cons v vs) rest (by simp) hplist hfuel
          have ht1 : ∃ t1, renderItems (JsList.cons v vs) = c0 :: t1 := by
            cases vs with
            | nil => exact ⟨t0, by simp [renderItems, hv0]⟩
            | cons w ws =>
              exact ⟨t0 ++ ',' :: renderItems (JsList.cons w ws),
                by simp [renderItems, hv0]⟩
          obtain ⟨t1, hshape⟩ := ht1
          have hform : renderL (.arr (JsList.cons v vs)) ++ rest
              = '[' :: c0 :: (t1 ++ ']' :: rest) := by
            simp [renderL, hshape]
          rw [hform]
          have h1 : isDigitChar '[' = false := by decide
          simp only [parseVal]
          simp only [h1, Bool.false_eq_true, if_false]
          have hback : c0 :: (t1 ++ ']' :: rest)
              = renderItems (JsList.cons v vs) ++ ']' :: rest := by
            simp [hshape]
          simp [hne1, hback, hitems]
      | obj fs =>
        cases fs with
        | nil =>
          have h1 : isDigitChar '\x7b' = false := by decide
          simp [renderL, renderFields, parseVal, h1]
        | cons k v fs2 =>
          have hconj : isPlain v = true ∧ isPlainFields fs2 = true := by
            simpa [isPlain, isPlainFields] using hp
          have hv : isUndef v = false := isPlain_not_undef hconj.1
          have hpf : isPlainFields (JsFields.cons k v fs2) = true := by
            simpa [isPlain] using hp
          have hfuel : (renderFields (JsFields.cons k v fs2)).length + 1 ≤ f := by
            simp [renderL] at hlen
            omega
          have hflds := ihF (JsFields.cons k v fs2) rest (by simp) hpf hfuel
          have hshape : ∃ t1, renderFields (JsFields.cons k v fs2) = '"' :: t1 := by
            refine ⟨escList k ++ '"' :: (':' :: (renderL v ++
              (if hasEmittable fs2 then ',' :: renderFields fs2
               else renderFields fs2))), ?_⟩
            simp [renderFields, hv, quoteL]
          obtain ⟨t1, hshape⟩ := hshape
          have hform : renderL (.obj (JsFields.cons k v fs2)) ++ rest
              = '\x7b' :: '"' :: (t1 ++ '\x7d' :: rest) := by
            simp [renderL, hshape]
          rw [hform]
          have h1 : isDigitChar '\x7b' = false := by decide
          simp only [parseVal]
          simp only [h1, Bool.false_eq_true, if_false]
          have hback : '"' :: (t1 ++ '\x7d' :: rest)
              = renderFields (JsFields.cons k v fs2) ++ '\x7d' :: rest := by
            simp [hshape]
          simp [hback, hflds]
    · intro xs rest hne hpl hlen
      cases xs with
      | nil => exact absurd rfl hne
      | cons v vs =>
        cases vs with
        | nil =>
          have hpv : isPlain v = true := by simpa [isPlainList] using hpl
          have hfv : (renderL v).length ≤ f := by
            simp [renderItems] at hlen
            omega
          have hval := ihV v (']' :: rest) hpv hfv rfl
          simp only [parseItems, renderItems]
          rw [hval]
          simp
        | cons w ws =>
          have hsplit : isPlain v = true ∧ isPlainList (JsList.cons w ws) = true := by
            simpa [isPlainList] using hpl
          have hlen2 : (renderL v).length + 1 +
              (renderItems (JsList.cons w ws)).length + 1 ≤ f + 1 := by
            simp [renderItems] at hlen
            omega
          have hvpos := renderL_length_pos v
          have hval := ihV v (',' :: (renderItems (JsList.cons w ws) ++ ']' :: rest))
            hsplit.1 (by omega) rfl
          have hrec := ihI (JsList.cons w ws) rest (by simp) hsplit.2 (by omega)
          have hform : renderItems (JsList.cons v (JsList.cons w ws)) ++ ']' :: rest
              = renderL v ++ (',' :: (renderItems (JsList.cons w ws) ++ ']' :: rest)) := by
            simp [renderItems]
          simp only [parseItems]
          rw [hform, hval]
          simp [hrec]
    · intro fs rest hne hpf hlen
      cases fs with
      | nil => exact absurd rfl hne
      | cons k v fs2 =>
        have hconj : isPlain v = true ∧ isPlainFields fs2 = true := by
          simpa [isPlainFields] using hpf
        have hv : isUndef v = false := isPlain_not_undef hconj.1
        cases fs2 with
        | nil =>
          have hfv : (renderL v).length ≤ f := by
            simp [renderFields, hv, hasEmittable, quoteL] at hlen
            omega
          have hval := ihV v ('\x7d' :: rest) hconj.1 hfv rfl
          have hform : renderFields (JsFields.cons k v JsFields.nil) ++ '\x7d' :: rest
              = '"' :: (escList k ++ '"' :: (':' :: (renderL v ++ '\x7d' :: rest))) := by
            simp [renderFields, hv, hasEmittable, quoteL]
          rw [hform, parseFields_key]
          simp [hval]
        | cons k2 v2 fs3 =>
          have hem : hasEmittable (JsFields.cons k2 v2 fs3) = true :=
            hasEmittable_of_plain hconj.2 (by simp)
          have hvpos := renderL_length_pos v
          have hlen2 : (quoteL k).length + 1 + (renderL v).length + 1 +
              (renderFields (JsFields.cons k2 v2 fs3)).length + 1 ≤ f + 1 := by
            simp [renderFields, hv, hem, quoteL] at hlen ⊢
            omega
          have hval := ihV v
            (',' :: (renderFields (JsFields.cons k2 v2 fs3) ++ '\x7d' :: rest))
            hconj.1 (by omega) rfl
          have hrec := ihF (JsFields.cons k2 v2 fs3) rest (by simp) hconj.2 (by omega)
          have hform : renderFields (JsFields.cons k v (JsFields.cons k2 v2 fs3))
                ++ '\x7d' :: rest
              = '"' :: (escList k ++ '"' :: (':' :: (renderL v ++
                  (',' :: (renderFields (JsFields.cons k2 v2 fs3) ++ '\x7d' :: rest))))) := by
            simp [renderFields, hv, hem, quoteL]
          rw [hform, parseFields_key]
          simp [hval, hrec]

/-- Parsing inverts rendering at fuel equal to the rendered length. -/
theorem parseVal_renderL (v : JsValue) (h : isPlain v = true) :
    parseVal (renderL v).length (renderL v) = some (v, []) := by
  have hmain := (parse_render_fuel (renderL v).length).1 v [] h le_rfl rfl
  simpa using hmain

/-- Deserializing the serialization of a JSON-representable value yields
the value back. -/
theorem jsonParse_renderL (v : JsValue) (h : isPlain v = true) :
    jsonParse (renderL v) = some v := by
  simp [jsonParse, parseVal_renderL v h]

/-! ## C2: `sendMessage` forwards the exact serialization, which round-trips -/

/-- C2: for every JSON-representable message payload, `sendMessage`
forwards to the native asynchronous entry point exactly the JSON
serialization of the payload (together with the stored handle), records
exactly that call, and deserializing the forwarded text recovers the
original message structure. -/
theorem sendMessage_serializes_and_roundtrips (eng : NativeEngine H E)
    (self : MessageHandler H) (message : JsValue)
    (h : isPlain message = true) :
    MessageHandler.sendMessage eng self message =
      (self, eng.sendMessageAsync (some (renderL message)) self.messageHandler,
       [.sendCall (some (renderL message))]) ∧
    jsonParse (renderL message) = some message := by
  constructor
  · simp [MessageHandler.sendMessage, jsStringify, isPlain_not_undef h]
  · exact jsonParse_renderL message h

/-- Witness for C2 at a concrete engine, instance and payload. -/
theorem sendMessage_serializes_and_roundtrips_witness :
    MessageHandler.sendMessage engOk ⟨7⟩ msgSample =
      ((⟨7⟩ : MessageHandler Nat),
       engOk.sendMessageAsync (some (renderL msgSample))
         (⟨7⟩ : MessageHandler Nat).messageHandler,
       [.sendCall (some (renderL msgSample))]) ∧
    jsonParse (renderL msgSample) = some msgSample :=
  sendMessage_serializes_and_roundtrips engOk ⟨7⟩ msgSample (by decide)

end IotaSdk
